import Mathlib

/-
Verification of the Rank-Spotter rank-resolution engine.

This file gives a shallow embedding of the core logic of
src/serp_api.py (class SerpApiClient): the domain normalizer
_normalize_domain, the result matcher used inside find_domain_rank, the
paginated fetcher search, the chunked early-exit resolver
find_domain_rank, and the response assembler _create_response.

Modelling conventions:
  - Upstream result items (entries of organic_results) are modelled as
    string-to-string dictionaries (association lists), so that dict.get
    with a default and Python truthiness of a dict are represented
    faithfully.
  - Network fetches are modelled by oracles of type Nat -> Option (List Item):
    the outcome of fetching a given zero-based page.  none models a request
    that fails (timeout / non-2xx / exhausted retries); some organic models a
    page whose organic_results parsed to the given list.  The parallel path
    and the sequential fallback path consult separate oracles, since the code
    issues separate requests on each path.
  - Python str operations are modelled on List Char: str.lower via
    Char.toLower (ASCII case mapping, which is what all inputs in this
    development use), str.strip via dropping whitespace at both ends,
    str.replace with an empty replacement via a left-to-right
    non-overlapping scan, str.split(sep)[0] via takeWhile, and
    str.rstrip via dropping matching trailing characters.
  - The timestamp field of the response dict is wall-clock output and is not
    modelled as data; the key itself is tracked by Response.keys, which
    models the key set of the dict built by _create_response.
-/

namespace RankSpotter

/-- One organic search result, as a string-to-string dictionary. -/
abbrev Item := List (String × String)

/-- Python dict.get key default on an Item. -/
def itemGet : Item → String → String → String
  | [], _, d => d
  | (k, v) :: rest, key, d => if k = key then v else itemGet rest key d

/-! ## Domain normalizer: SerpApiClient._normalize_domain (src/serp_api.py lines 251-292) -/

/-- Python str.strip default whitespace characters (ASCII range). -/
def isPySpace (c : Char) : Bool :=
  c == ' ' || c == '\t' || c == '\n' || c == '\r' || c == '\x0b' || c == '\x0c'

/-- Python str.strip: drop whitespace at both ends. -/
def pyStripChars (l : List Char) : List Char :=
  ((l.dropWhile isPySpace).reverse.dropWhile isPySpace).reverse

/-- Helper for pyReplaceEmpty: scan left to right; on a match of
p0 :: ps consume the head and enter a skip state for the remaining
pattern characters (non-overlapping replacement, as Python str.replace). -/
def removeAllAux (p0 : Char) (ps : List Char) : Nat → List Char → List Char
  | _, [] => []
  | 0, c :: cs =>
      if c == p0 && ps.isPrefixOf cs then removeAllAux p0 ps ps.length cs
      else c :: removeAllAux p0 ps 0 cs
  | k + 1, _ :: cs => removeAllAux p0 ps k cs

/-- Python s.replace(pat, ""): remove every non-overlapping occurrence of
pat, scanning left to right. -/
def pyReplaceEmpty (pat : List Char) (l : List Char) : List Char :=
  match pat with
  | [] => l
  | p0 :: ps => removeAllAux p0 ps 0 l

/-- Python domain.startswith("www.") and domain[4:] on the character list. -/
def stripWwwLabel (l : List Char) : List Char :=
  if ("www.".data).isPrefixOf l then l.drop 4 else l

/-- Python s.rstrip("."): drop trailing dot characters. -/
def rstripDots (l : List Char) : List Char :=
  (l.reverse.dropWhile (fun c => c == '.')).reverse

/-- The character-level pipeline of _normalize_domain, in source order:
lower + strip, remove protocol substrings, remove a leading www. label,
drop everything after the first slash, question mark and colon, then drop
trailing dots. -/
def normalizeChars (l : List Char) : List Char :=
  let d1 := pyStripChars (l.map Char.toLower)
  let d2 := pyReplaceEmpty ("https://".data) d1
  let d3 := pyReplaceEmpty ("http://".data) d2
  let d4 := stripWwwLabel d3
  let d5 := d4.takeWhile (fun c => c != '/')
  let d6 := d5.takeWhile (fun c => c != '?')
  let d7 := d6.takeWhile (fun c => c != ':')
  rstripDots d7

/-- SerpApiClient._normalize_domain (src/serp_api.py lines 251-292).
A missing url argument is modelled by the empty string, which the
code maps to the empty string. -/
def normalize_domain (url : String) : String :=
  if url = "" then "" else ⟨normalizeChars url.data⟩

/-! ## Result matcher: the condition at src/serp_api.py line 232 -/

/-- Python s.endswith(suffix). -/
def strEndsWith (s suffix : String) : Bool :=
  suffix.data.reverse.isPrefixOf s.data.reverse

/-- The match test applied to each result inside find_domain_rank
(src/serp_api.py lines 228-237): the normalized candidate link either
equals the normalized target domain or ends with "." followed by it. -/
def domainMatch (normalized_domain : String) (result_link : String) : Bool :=
  let result_domain := normalize_domain result_link
  result_domain == normalized_domain ||
    strEndsWith result_domain ("." ++ normalized_domain)

/-! ## Response assembler: SerpApiClient._create_response (src/serp_api.py lines 294-338) -/

/-- One entry of the top_results preview list. -/
structure TopResult where
  position : Nat
  title : String
  link : String
  snippet : String
  displayed_link : String
deriving DecidableEq

/-- The four keys added to the response dict only when a match exists. -/
structure Details where
  url : String
  title : String
  snippet : String
  displayed_link : String
deriving DecidableEq

/-- The response dict built by _create_response.  The keys that are always
present are plain fields; position holds an Option so that the null value
stored under the position key when the domain is not found is distinguished
from the key being absent; details holds the four conditionally-added keys,
with none meaning those keys are absent from the dict. -/
structure Response where
  keyword : String
  domain : String
  position : Option Nat
  found : Bool
  total_results : Nat
  top_results : List TopResult
  details : Option Details
deriving DecidableEq

/-- The if found_result: block of _create_response (lines 331-336).  Python
truthiness of a dict makes an empty found_result dict behave like None. -/
def detailsOf : Option Item → Option Details
  | none => none
  | some r =>
      if r.isEmpty then none
      else some { url := itemGet r "link" "N/A",
                  title := itemGet r "title" "N/A",
                  snippet := itemGet r "snippet" "N/A",
                  displayed_link := itemGet r "displayed_link" "N/A" }

/-- The top-10 preview built by the enumerate loop of _create_response
(lines 311-319), with 1-based positions starting at idx. -/
def topResultsFrom : Nat → List Item → List TopResult
  | _, [] => []
  | idx, r :: rs =>
      { position := idx,
        title := itemGet r "title" "N/A",
        link := itemGet r "link" "N/A",
        snippet := itemGet r "snippet" "N/A",
        displayed_link := itemGet r "displayed_link" "N/A" }
      :: topResultsFrom (idx + 1) rs

/-- SerpApiClient._create_response (src/serp_api.py lines 294-338). -/
def create_response (keyword domain : String) (position : Option Nat)
    (organic_results : List Item) (found_result : Option Item) : Response :=
  { keyword := keyword,
    domain := domain,
    position := position,
    found := position.isSome,
    total_results := organic_results.length,
    top_results := topResultsFrom 1 (organic_results.take 10),
    details := detailsOf found_result }

/-- The key set of the dict built by _create_response, in insertion order:
the seven keys of the base dict literal (lines 321-329), then the four keys
added by the if found_result: block (lines 331-336). -/
def Response.keys (r : Response) : List String :=
  ["keyword", "domain", "position", "found", "total_results", "top_results",
   "timestamp"]
  ++ (match r.details with
      | some _ => ["url", "title", "snippet", "displayed_link"]
      | none => [])

/-! ## Paginated fetcher: SerpApiClient.search (src/serp_api.py lines 36-179) -/

/-- A page-fetch oracle: the outcome of requesting a given zero-based page.
none models a request failure (timeout, non-2xx after retries); some organic
models a page answering with the given organic_results list. -/
abbrev PageOracle := Nat → Option (List Item)

/-- Assembly of successfully parallel-fetched pages in page order
(lines 142-151): concatenate until the first empty page, which stops
assembly. -/
def assemblePages : List (List Item) → List Item
  | [] => []
  | p :: ps => if p.isEmpty then [] else p ++ assemblePages ps

/-- The sequential fallback loop (lines 106-141): fetch pages in order; a
page that fails after its retries stops the loop keeping earlier pages, and
an empty page stops the loop as well. -/
def seqFetch (fs : PageOracle) : List Nat → List Item
  | [] => []
  | i :: is =>
      match fs i with
      | none => []
      | some organic => if organic.isEmpty then [] else organic ++ seqFetch fs is

/-- SerpApiClient.search (src/serp_api.py lines 36-179).  fp is the oracle
consulted by the parallel fetch, fs the one consulted by the sequential
fallback.  pages_needed is ceil(max_results / 10) capped at 5 (lines 56-58);
if every parallel request succeeded the pages are assembled in page order,
otherwise the sequential fallback runs; the assembled list is trimmed to
max_results (line 160).  Under the modelled failure modes (per-page request
failures) the code never raises: the sequential fallback breaks out of its
loop on failure and the function returns the results collected so far. -/
def search (fp fs : PageOracle) (max_results : Nat) : List Item :=
  let per_page := 10
  let pages_needed := min ((max_results + per_page - 1) / per_page) 5
  let page_idxs := List.range pages_needed
  let all :=
    if page_idxs.all (fun i => (fp i).isSome) then
      assemblePages (page_idxs.map (fun i => (fp i).getD []))
    else
      seqFetch fs page_idxs
  all.take max_results

/-! ## Rank resolver: SerpApiClient.find_domain_rank (src/serp_api.py lines 181-249) -/

/-- The scan loop of find_domain_rank (lines 228-237): enumerate results
from the given 1-based index and return the first match together with its
position. -/
def scanFrom (normalized_domain : String) : Nat → List Item → Option (Nat × Item)
  | _, [] => none
  | idx, result :: rest =>
      if domainMatch normalized_domain (itemGet result "link" "") then
        some (idx, result)
      else scanFrom normalized_domain (idx + 1) rest

/-- The scan of a result list starting at position 1, as in
enumerate(all_organic_results, start=1). -/
def findFirstMatch (nd : String) (results : List Item) : Option (Nat × Item) :=
  scanFrom nd 1 results

/-- The chunk loop of find_domain_rank (lines 219-241), one iteration per
chunk start.  Each iteration refetches the cumulative prefix via search,
scans it from position 1, returns early on a match, and stops when the
fetched count reaches max_results; the accumulator carries
all_organic_results across iterations for the final not-found response
(line 245). -/
def chunkLoop (fp fs : PageOracle) (keyword domain nd : String)
    (max_results : Nat) : List Nat → List Item → Response
  | [], acc => create_response keyword domain none acc none
  | chunk_start :: rest, _ =>
      let chunk_max := min 20 (max_results - chunk_start)
      let results := search fp fs (chunk_start + chunk_max)
      match findFirstMatch nd results with
      | some (position, found_result) =>
          create_response keyword domain (some position) results (some found_result)
      | none =>
          if max_results ≤ results.length then
            create_response keyword domain none results none
          else chunkLoop fp fs keyword domain nd max_results rest results

/-- The chunk starts range(0, max_results, 20) of line 219. -/
def chunkStarts (max_results : Nat) : List Nat :=
  List.range' 0 ((max_results + 19) / 20) 20

/-- SerpApiClient.find_domain_rank (src/serp_api.py lines 181-249). -/
def find_domain_rank (fp fs : PageOracle) (keyword domain : String)
    (max_results : Nat) : Response :=
  chunkLoop fp fs keyword domain (normalize_domain domain) max_results
    (chunkStarts max_results) []

/-- A well-behaved upstream holding the fixed result list L: page i answers
with items 10*i .. 10*i+9 of L. -/
def pagesOf (L : List Item) : PageOracle :=
  fun i => some ((L.drop (10 * i)).take 10)

/-- A concrete upstream result list for witnesses: page 1 carries ten items
that do not match example.com, page 2 carries two more non-matching items,
then the matching item at overall 1-based position 13, then one more item. -/
def exampleResults : List Item :=
  [[("link", "https://site1.com/a")], [("link", "https://site2.com/a")],
   [("link", "https://site3.com/a")], [("link", "https://site4.com/a")],
   [("link", "https://site5.com/a")], [("link", "https://site6.com/a")],
   [("link", "https://site7.com/a")], [("link", "https://site8.com/a")],
   [("link", "https://site9.com/a")], [("link", "https://site10.com/a")],
   [("link", "https://site11.com/a")], [("link", "https://site12.com/a")],
   [("link", "https://example.com/shoes")], [("link", "https://site14.com/a")]]

/-! ## Spec-side definitions used by refinement claims -/

/-- The normalization algorithm as worded by the spec for claim C8: lower-case
and trim; strip a leading https:// or http:// scheme, only at the start of the
string; strip a leading www. label; truncate at the first slash, first
question mark and first colon; strip trailing dots; empty input yields the
empty string. -/
def normalizeSpecLeading (url : String) : String :=
  if url = "" then "" else
  let d1 := pyStripChars (url.data.map Char.toLower)
  let d2 :=
    if ("https://".data).isPrefixOf d1 then d1.drop 8
    else if ("http://".data).isPrefixOf d1 then d1.drop 7
    else d1
  let d3 := stripWwwLabel d2
  let d4 := d3.takeWhile (fun c => c != '/')
  let d5 := d4.takeWhile (fun c => c != '?')
  let d6 := d5.takeWhile (fun c => c != ':')
  ⟨rstripDots d6⟩

/-- The normalization algorithm of claim C8 amended at the scheme step:
every occurrence of https:// and then of http:// is removed, not only a
leading one, because the code uses str.replace; all other steps as the
claim states them. -/
def normalizeSpecEverywhere (url : String) : String :=
  if url = "" then "" else
  let d1 := pyStripChars (url.data.map Char.toLower)
  let d2 := pyReplaceEmpty ("https://".data) d1
  let d3 := pyReplaceEmpty ("http://".data) d2
  let d4 := stripWwwLabel d3
  let d5 := d4.takeWhile (fun c => c != '/')
  let d6 := d5.takeWhile (fun c => c != '?')
  let d7 := d6.takeWhile (fun c => c != ':')
  ⟨rstripDots d7⟩

end RankSpotter

namespace RankSpotter

/-! ## Generic helper lemmas -/

/-- The characters of a dropWhile-both-ends strip are characters of the
input. -/
theorem mem_pyStripChars {c : Char} {l : List Char} (h : c ∈ pyStripChars l) :
    c ∈ l := by
  unfold pyStripChars at h
  rw [List.mem_reverse] at h
  have h2 := (List.dropWhile_sublist isPySpace).mem h
  rw [List.mem_reverse] at h2
  exact (List.dropWhile_sublist isPySpace).mem h2

/-- The characters of a removeAllAux scan are characters of the input. -/
theorem mem_removeAllAux {c p0 : Char} {ps : List Char} :
    ∀ {l : List Char} {k : Nat}, c ∈ removeAllAux p0 ps k l → c ∈ l := by
  intro l
  induction l with
  | nil => intro k h; simp [removeAllAux] at h
  | cons a as ih =>
    intro k h
    match k with
    | 0 =>
      rw [removeAllAux] at h
      by_cases hc : (a == p0 && ps.isPrefixOf as) = true
      · rw [if_pos hc] at h
        exact List.mem_cons_of_mem a (ih h)
      · rw [if_neg hc] at h
        rcases List.mem_cons.mp h with h | h
        · exact h ▸ List.mem_cons_self a as
        · exact List.mem_cons_of_mem a (ih h)
    | k + 1 =>
      rw [removeAllAux] at h
      exact List.mem_cons_of_mem a (ih h)

/-- The characters of a pyReplaceEmpty result are characters of the input. -/
theorem mem_pyReplaceEmpty {c : Char} {pat l : List Char}
    (h : c ∈ pyReplaceEmpty pat l) : c ∈ l := by
  match pat with
  | [] => exact h
  | p0 :: ps => exact mem_removeAllAux h

/-- The characters of a stripWwwLabel result are characters of the input. -/
theorem mem_stripWwwLabel {c : Char} {l : List Char}
    (h : c ∈ stripWwwLabel l) : c ∈ l := by
  unfold stripWwwLabel at h
  split at h
  · exact List.mem_of_mem_drop h
  · exact h

/-- The characters of a rstripDots result are characters of the input. -/
theorem mem_rstripDots {c : Char} {l : List Char} (h : c ∈ rstripDots l) :
    c ∈ l := by
  unfold rstripDots at h
  rw [List.mem_reverse] at h
  have := (List.dropWhile_sublist (fun c => c == '.')).mem h
  rwa [List.mem_reverse] at this

/-- removeAllAux in scan state is the identity when some character of the
pattern tail is absent from the input, since the pattern can then match
nowhere. -/
theorem removeAllAux_eq_self {a p0 : Char} {ps : List Char} (ha : a ∈ ps) :
    ∀ {l : List Char}, a ∉ l → removeAllAux p0 ps 0 l = l := by
  intro l
  induction l with
  | nil => intro _; rfl
  | cons c cs ih =>
    intro hnl
    rw [removeAllAux]
    have hcond : ¬((c == p0 && ps.isPrefixOf cs) = true) := by
      intro hc
      rcases Bool.and_eq_true_iff.mp hc with ⟨_, hpre⟩
      have : a ∈ cs := (List.isPrefixOf_iff_prefix.mp hpre).subset ha
      exact hnl (List.mem_cons_of_mem c this)
    rw [if_neg hcond, ih (fun h => hnl (List.mem_cons_of_mem c h))]

/-- takeWhile with a disequality test is the identity when the tested
character is absent. -/
theorem takeWhile_ne_eq_self {a : Char} :
    ∀ {l : List Char}, a ∉ l → l.takeWhile (fun c => c != a) = l := by
  intro l
  induction l with
  | nil => intro _; rfl
  | cons c cs ih =>
    intro hnl
    have hca : (c != a) = true := by
      have : c ≠ a := fun h => hnl (h ▸ List.mem_cons_self c cs)
      simpa using this
    rw [List.takeWhile_cons, if_pos hca, ih (fun h => hnl (List.mem_cons_of_mem c h))]

/-- A character is never an element of the takeWhile that cuts at it. -/
theorem not_mem_takeWhile_ne (a : Char) (l : List Char) :
    a ∉ l.takeWhile (fun c => c != a) := by
  intro h
  have := List.mem_takeWhile_imp h
  simp at this

/-- dropWhile is idempotent. -/
theorem dropWhile_idem {α : Type} (p : α → Bool) :
    ∀ l : List α, (l.dropWhile p).dropWhile p = l.dropWhile p := by
  intro l
  induction l with
  | nil => rfl
  | cons c cs ih =>
    by_cases hc : p c = true
    · rw [List.dropWhile_cons_of_pos hc, ih]
    · rw [List.dropWhile_cons_of_neg hc, List.dropWhile_cons_of_neg hc]

/-- rstripDots is idempotent. -/
theorem rstripDots_idem (l : List Char) :
    rstripDots (rstripDots l) = rstripDots l := by
  unfold rstripDots
  rw [List.reverse_reverse, dropWhile_idem]

/-- A dropWhile result never starts with an element satisfying the test;
specialized to the dot test and phrased through isPrefixOf. -/
theorem not_singleton_isPrefixOf_dropWhile (l : List Char) :
    (['.'].isPrefixOf (l.dropWhile (fun c => c == '.'))) = false := by
  induction l with
  | nil => rfl
  | cons c cs ih =>
    by_cases hc : (c == '.') = true
    · rw [List.dropWhile_cons, if_pos hc, ih]
    · rw [List.dropWhile_cons, if_neg hc]
      show (('.' == c) && List.isPrefixOf [] cs) = false
      have hne : c ≠ '.' := by simpa using hc
      have hbeq : ('.' == c) = false := by
        simp only [beq_eq_false_iff_ne]
        exact fun h => hne h.symm
      rw [hbeq, Bool.false_and]

/-- Char.toLower is idempotent. -/
theorem toLower_idem (c : Char) :
    Char.toLower (Char.toLower c) = Char.toLower c := by
  unfold Char.toLower
  by_cases h : c.toNat ≥ 65 ∧ c.toNat ≤ 90
  · rw [if_pos h]
    have hv : (c.toNat + 32).isValidChar := by left; omega
    have heq : (Char.ofNat (c.toNat + 32)).toNat = c.toNat + 32 := by
      rw [Char.ofNat, dif_pos hv]
      simp [Char.ofNatAux, Char.toNat, UInt32.toNat, BitVec.toNat_ofNatLt]
    rw [if_neg]
    omega
  · rw [if_neg h, if_neg h]

/-- Rebuilding a string from its character list is the identity. -/
theorem string_mk_data (s : String) : (⟨s.data⟩ : String) = s := rfl

/-! ## The normalized form has no separator characters and no trailing dot -/

/-- Every character of a normalizeChars result survives the three takeWhile
cuts, hence is none of the slash, question mark and colon characters. -/
theorem normalizeChars_no_sep (l : List Char) :
    '/' ∉ normalizeChars l ∧ '?' ∉ normalizeChars l ∧ ':' ∉ normalizeChars l := by
  unfold normalizeChars
  refine ⟨fun h => ?_, fun h => ?_, fun h => ?_⟩
  · have h7 := mem_rstripDots h
    have h6 := List.mem_takeWhile_imp h7
    have h5 := List.mem_takeWhile_imp ((List.takeWhile_sublist _).mem h7)
    have h4 := List.mem_takeWhile_imp
      ((List.takeWhile_sublist _).mem ((List.takeWhile_sublist _).mem h7))
    simp at h4
  · have h7 := mem_rstripDots h
    have h6 := List.mem_takeWhile_imp ((List.takeWhile_sublist _).mem h7)
    simp at h6
  · have h7 := mem_rstripDots h
    have h6 := List.mem_takeWhile_imp h7
    simp at h6

/-- Every character of a normalizeChars result is fixed by Char.toLower. -/
theorem normalizeChars_lowered {c : Char} {l : List Char}
    (h : c ∈ normalizeChars l) : Char.toLower c = c := by
  unfold normalizeChars at h
  have h1 : c ∈ pyStripChars (l.map Char.toLower) :=
    mem_pyReplaceEmpty (mem_pyReplaceEmpty (mem_stripWwwLabel
      ((List.takeWhile_sublist _).mem ((List.takeWhile_sublist _).mem
        ((List.takeWhile_sublist _).mem (mem_rstripDots h))))))
  have h2 : c ∈ l.map Char.toLower := mem_pyStripChars h1
  rcases List.mem_map.mp h2 with ⟨a, _, rfl⟩
  exact toLower_idem a

/-- The normalized form of any input never ends with a dot, phrased as the
endswith test against a bare dot suffix. -/
theorem strEndsWith_normalize_dot (u : String) :
    strEndsWith (normalize_domain u) "." = false := by
  unfold normalize_domain
  by_cases hu : u = ""
  · rw [if_pos hu]; rfl
  · rw [if_neg hu]
    show (".".data.reverse.isPrefixOf (normalizeChars u.data).reverse) = false
    unfold normalizeChars rstripDots
    rw [List.reverse_reverse]
    exact not_singleton_isPrefixOf_dropWhile _


/-! ## Claim C1: behavior when every page fetch fails -/

/-- Claim C1: the claim states that when every page fetch fails (parallel
page-1 request times out and the sequential fallback exhausts its retries),
find_domain_rank fails with a fetch-level error and produces no RankResult.
The code does not do this: with every page fetch failing, the sequential
fallback breaks out of its loop, search returns an empty organic_results
list as a success, and find_domain_rank returns a definitive not-found
RankResult.  This theorem evaluates the model at that failing input. -/
theorem c1_all_fetches_fail_still_returns_result :
    search (fun _ => none) (fun _ => none) 100 = []
    ∧ (find_domain_rank (fun _ => none) (fun _ => none)
        "shoes" "example.com" 100).found = false
    ∧ (find_domain_rank (fun _ => none) (fun _ => none)
        "shoes" "example.com" 100).position = none
    ∧ (find_domain_rank (fun _ => none) (fun _ => none)
        "shoes" "example.com" 100).total_results = 0 := by
  refine ⟨by decide, by decide, by decide, by decide⟩

/-! ## Claim C5: the matcher rule and lookalike rejection -/

/-- Claim C5: for every non-empty canonical target domain t and candidate
URL u, the match test used inside find_domain_rank succeeds iff the
normalized candidate equals t or ends with dot-t; the subdomain
blog.example.com matches target example.com while the lookalike domains
notexample.com and myexample.com do not. -/
theorem c5_matcher_rule_and_lookalikes (t u : String) (ht : t ≠ "") :
    (domainMatch t u = true ↔
      (normalize_domain u = t ∨
        strEndsWith (normalize_domain u) ("." ++ t) = true))
    ∧ domainMatch "example.com" "https://blog.example.com/post" = true
    ∧ domainMatch "example.com" "https://notexample.com/page" = false
    ∧ domainMatch "example.com" "https://myexample.com" = false := by
  refine ⟨?_, by decide, by decide, by decide⟩
  simp only [domainMatch, Bool.or_eq_true, beq_iff_eq]

/-- Witness for c5_matcher_rule_and_lookalikes at a concrete target and
candidate. -/
theorem c5_matcher_rule_and_lookalikes_witness :
    ("example.com" : String) ≠ "" ∧
      (domainMatch "example.com" "https://blog.example.com/post" = true ↔
        (normalize_domain "https://blog.example.com/post" = "example.com" ∨
          strEndsWith (normalize_domain "https://blog.example.com/post")
            ("." ++ "example.com") = true)) :=
  ⟨by decide,
   (c5_matcher_rule_and_lookalikes "example.com"
      "https://blog.example.com/post" (by decide)).1⟩

/-! ## Claim C6: matching against an empty canonical target -/

/-- Claim C6 counterexample: the claim states that an empty canonical target
never matches any candidate URL, including an empty or absent link; but the
match test of the code accepts an empty link against an empty target, since
both normalize to the empty string. -/
theorem c6_counterexample : domainMatch "" "" = true := by decide

/-- Claim C6 as amended: an empty canonical target matches exactly those
candidate URLs whose normalized form is empty (for instance an absent link);
every candidate with a non-empty normalized form is rejected. -/
theorem c6_empty_target_matches_iff_empty_candidate (u : String) :
    domainMatch "" u = true ↔ normalize_domain u = "" := by
  simp only [domainMatch]
  rw [show ("." ++ "" : String) = "." from rfl, strEndsWith_normalize_dot,
    Bool.or_false]
  exact beq_iff_eq

/-! ## Claim C8: the normalization pipeline -/

/-- Claim C8 counterexample: the claim states that the scheme markers are
stripped only at the start of the string; but the code uses str.replace,
which removes the scheme substring everywhere, so the two pipelines disagree
on an input carrying an interior scheme substring. -/
theorem c8_counterexample :
    normalize_domain "a.comhttps://b" ≠ normalizeSpecLeading "a.comhttps://b" := by
  decide

/-- Claim C8 as amended: the normalizer lower-cases and trims, removes every
occurrence of https:// and then of http:// (not only a leading one),
strips one leading www. label, truncates at the first slash, question mark
and colon, strips trailing dots, and maps empty input to the empty string;
the two concrete evaluations of the claim hold as stated. -/
theorem c8_normalize_pipeline_amended :
    (∀ s, normalize_domain s = normalizeSpecEverywhere s)
    ∧ normalize_domain "https://www.Example.com/Path?x=1" = "example.com"
    ∧ normalize_domain "example.com:8080" = "example.com" :=
  ⟨fun _ => rfl, by decide, by decide⟩

/-! ## Claim C10: key shape of the assembled response dict -/

/-- Claim C10: every response dict built by _create_response contains the
keys keyword, domain, position, found, total_results, top_results and
timestamp; the position key holds the supplied value, so it is present with
a null value when the domain was not found; and each of the keys url, title,
snippet and displayed_link is present exactly when a non-empty matched item
was supplied. -/
theorem c10_response_key_shape (kw dom : String) (pos : Option Nat)
    (organic : List Item) (fr : Option Item) :
    ("keyword" ∈ (create_response kw dom pos organic fr).keys
      ∧ "domain" ∈ (create_response kw dom pos organic fr).keys
      ∧ "position" ∈ (create_response kw dom pos organic fr).keys
      ∧ "found" ∈ (create_response kw dom pos organic fr).keys
      ∧ "total_results" ∈ (create_response kw dom pos organic fr).keys
      ∧ "top_results" ∈ (create_response kw dom pos organic fr).keys
      ∧ "timestamp" ∈ (create_response kw dom pos organic fr).keys)
    ∧ (create_response kw dom pos organic fr).position = pos
    ∧ (("url" ∈ (create_response kw dom pos organic fr).keys
          ↔ ∃ it, fr = some it ∧ it ≠ [])
      ∧ ("title" ∈ (create_response kw dom pos organic fr).keys
          ↔ ∃ it, fr = some it ∧ it ≠ [])
      ∧ ("snippet" ∈ (create_response kw dom pos organic fr).keys
          ↔ ∃ it, fr = some it ∧ it ≠ [])
      ∧ ("displayed_link" ∈ (create_response kw dom pos organic fr).keys
          ↔ ∃ it, fr = some it ∧ it ≠ [])) := by
  cases fr with
  | none =>
    have hkeys : (create_response kw dom pos organic none).keys
        = ["keyword", "domain", "position", "found", "total_results",
           "top_results", "timestamp"] := rfl
    refine ⟨by rw [hkeys]; decide, rfl, ?_, ?_, ?_, ?_⟩ <;>
      (rw [hkeys];
       exact ⟨fun h => absurd h (by decide),
              fun h => by rcases h with ⟨it, h, _⟩; cases h⟩)
  | some it =>
    by_cases hit : it = []
    · subst hit
      have hkeys : (create_response kw dom pos organic (some [])).keys
          = ["keyword", "domain", "position", "found", "total_results",
             "top_results", "timestamp"] := rfl
      refine ⟨by rw [hkeys]; decide, rfl, ?_, ?_, ?_, ?_⟩ <;>
        (rw [hkeys];
         exact ⟨fun h => absurd h (by decide),
                fun h => by
                  rcases h with ⟨it', h', hne⟩
                  cases h'
                  exact absurd rfl hne⟩)
    · have hne : it.isEmpty = false := by
        rcases it with _ | ⟨a, as⟩
        · exact absurd rfl hit
        · rfl
      have hkeys : (create_response kw dom pos organic (some it)).keys
          = ["keyword", "domain", "position", "found", "total_results",
             "top_results", "timestamp", "url", "title", "snippet",
             "displayed_link"] := by
        simp [create_response, Response.keys, detailsOf, hne]
      refine ⟨by rw [hkeys]; decide, rfl, ?_, ?_, ?_, ?_⟩ <;>
        (rw [hkeys]; exact ⟨fun _ => ⟨it, rfl, hit⟩, fun _ => by decide⟩)

/-! ## Claim C3: idempotence of the normalizer -/

/-- normalizeChars always ends with the trailing-dot strip, so applying that
strip again changes nothing. -/
theorem rstripDots_normalizeChars (l : List Char) :
    rstripDots (normalizeChars l) = normalizeChars l := by
  unfold normalizeChars
  exact rstripDots_idem _

/-- normalizeChars is the identity on a character list that is already fully
normalized: no www. front label, strip-stable, all characters lower-case
fixpoints, no separator characters, and no trailing dots. -/
theorem normalizeChars_eq_self {l : List Char}
    (h1 : ("www.".data).isPrefixOf l = false)
    (h2 : pyStripChars l = l)
    (hlow : ∀ c ∈ l, Char.toLower c = c)
    (hsep : '/' ∉ l ∧ '?' ∉ l ∧ ':' ∉ l)
    (hdots : rstripDots l = l) :
    normalizeChars l = l := by
  simp only [normalizeChars]
  have hmap : l.map Char.toLower = l := by
    rw [List.map_congr_left hlow]
    simp
  rw [hmap, h2]
  rw [show pyReplaceEmpty ("https://".data) l = removeAllAux 'h' ("ttps://".data) 0 l
      from rfl]
  rw [removeAllAux_eq_self (show ':' ∈ "ttps://".data by decide) hsep.2.2]
  rw [show pyReplaceEmpty ("http://".data) l = removeAllAux 'h' ("ttp://".data) 0 l
      from rfl]
  rw [removeAllAux_eq_self (show ':' ∈ "ttp://".data by decide) hsep.2.2]
  rw [show stripWwwLabel l = if ("www.".data).isPrefixOf l then l.drop 4 else l
      from rfl]
  rw [h1, if_neg Bool.false_ne_true]
  rw [takeWhile_ne_eq_self hsep.1, takeWhile_ne_eq_self hsep.2.1,
    takeWhile_ne_eq_self hsep.2.2, hdots]

/-- normalize_domain is the identity on a string whose character list is
already fully normalized. -/
theorem normalize_domain_eq_self {y : String}
    (h1 : ("www.".data).isPrefixOf y.data = false)
    (h2 : pyStripChars y.data = y.data)
    (hlow : ∀ c ∈ y.data, Char.toLower c = c)
    (hsep : '/' ∉ y.data ∧ '?' ∉ y.data ∧ ':' ∉ y.data)
    (hdots : rstripDots y.data = y.data) :
    normalize_domain y = y := by
  by_cases hy : y = ""
  · rw [hy]; rfl
  · unfold normalize_domain
    rw [if_neg hy, normalizeChars_eq_self h1 h2 hlow hsep hdots, string_mk_data]

/-- Claim C3 counterexample: the claim states that the normalizer is
idempotent for every input string; but the code strips only one leading
www. label per run, so an input with a doubled www. label needs two runs to
reach a fixpoint. -/
theorem c3_counterexample :
    normalize_domain (normalize_domain "www.www.example.com")
      ≠ normalize_domain "www.www.example.com" := by decide

/-- Claim C3 as amended: the normalizer is idempotent on every input whose
normalized form does not start with a www. label and is stable under
whitespace stripping (the code strips only one www. label per run, and a
space next to a separator can survive one run); this covers the empty
string, bare domains, and well-formed URLs with scheme, www, path, query,
port and trailing dots. -/
theorem c3_normalize_idempotent_amended (x : String)
    (hw : ("www.".data).isPrefixOf (normalize_domain x).data = false)
    (hs : pyStripChars (normalize_domain x).data = (normalize_domain x).data) :
    normalize_domain (normalize_domain x) = normalize_domain x := by
  by_cases hx : x = ""
  · rw [hx]; rfl
  · have hdata : (normalize_domain x).data = normalizeChars x.data := by
      unfold normalize_domain
      rw [if_neg hx]
    exact normalize_domain_eq_self hw hs
      (fun c hc => normalizeChars_lowered (hdata ▸ hc))
      (by rw [hdata]; exact normalizeChars_no_sep _)
      (by rw [hdata]; exact rstripDots_normalizeChars _)

/-- Witness for c3_normalize_idempotent_amended at a concrete URL covering
scheme, www label, mixed case, path and query. -/
theorem c3_normalize_idempotent_amended_witness :
    (("www.".data).isPrefixOf
        (normalize_domain "https://www.Example.com/Path?x=1").data = false
      ∧ pyStripChars (normalize_domain "https://www.Example.com/Path?x=1").data
          = (normalize_domain "https://www.Example.com/Path?x=1").data)
    ∧ normalize_domain (normalize_domain "https://www.Example.com/Path?x=1")
        = normalize_domain "https://www.Example.com/Path?x=1" :=
  ⟨⟨by decide, by decide⟩,
   c3_normalize_idempotent_amended "https://www.Example.com/Path?x=1"
     (by decide) (by decide)⟩

/-! ## Claim C9: empty first page means a clean not-found result -/

/-- When page 1 is empty on both fetch paths, the page-assembly step of
search yields no items, whichever path runs. -/
theorem search_core_nil {fp fs : PageOracle}
    (h1 : fp 0 = some []) (h2 : fs 0 = some []) (k : Nat) :
    (if (List.range k).all (fun i => (fp i).isSome) then
        assemblePages ((List.range k).map (fun i => (fp i).getD []))
      else seqFetch fs (List.range k)) = [] := by
  cases k with
  | zero => simp [assemblePages, seqFetch]
  | succ j =>
    rw [List.range_succ_eq_map]
    by_cases hall :
        ((0 :: (List.range j).map Nat.succ).all (fun i => (fp i).isSome)) = true
    · rw [if_pos hall]
      simp [assemblePages, h1]
    · rw [if_neg hall]
      simp [seqFetch, h2]

/-- When page 1 is empty on both fetch paths, search returns no items for
any requested count. -/
theorem search_eq_nil_of_first_page_empty {fp fs : PageOracle}
    (h1 : fp 0 = some []) (h2 : fs 0 = some []) (m : Nat) :
    search fp fs m = [] := by
  simp only [search]
  rw [search_core_nil h1 h2]
  simp

/-- When every search call returns no items, each chunk iteration scans an
empty list, so the chunk loop falls through to the not-found response built
over an empty result list. -/
theorem chunkLoop_nil_searches {fp fs : PageOracle}
    (hsearch : ∀ m, search fp fs m = [])
    (kw dom nd : String) (max_results : Nat) :
    ∀ starts, chunkLoop fp fs kw dom nd max_results starts []
        = create_response kw dom none [] none := by
  intro starts
  induction starts with
  | nil => rfl
  | cons cs rest ih =>
    simp only [chunkLoop, hsearch, findFirstMatch, scanFrom, List.length_nil]
    split
    · rfl
    · exact ih

/-- Claim C9: when the upstream returns zero organic items on page 1 (on
both the parallel path and the sequential fallback), fetching stops without
error and find_domain_rank returns a successful not-found result with
found false, zero total results and an empty preview. -/
theorem c9_empty_first_page_clean_not_found (fp fs : PageOracle)
    (h1 : fp 0 = some []) (h2 : fs 0 = some [])
    (kw dom : String) (max_results : Nat) :
    search fp fs max_results = []
    ∧ (find_domain_rank fp fs kw dom max_results).found = false
    ∧ (find_domain_rank fp fs kw dom max_results).position = none
    ∧ (find_domain_rank fp fs kw dom max_results).total_results = 0
    ∧ (find_domain_rank fp fs kw dom max_results).top_results = [] := by
  have hs : ∀ m, search fp fs m = [] := search_eq_nil_of_first_page_empty h1 h2
  have hfind : find_domain_rank fp fs kw dom max_results
      = create_response kw dom none [] none := by
    unfold find_domain_rank
    exact chunkLoop_nil_searches hs kw dom (normalize_domain dom) max_results _
  rw [hfind]
  exact ⟨hs max_results, rfl, rfl, rfl, rfl⟩

/-- Witness for c9_empty_first_page_clean_not_found with an upstream that
always answers with an empty page. -/
theorem c9_empty_first_page_clean_not_found_witness :
    ((fun _ : Nat => some ([] : List Item)) 0 = some []
      ∧ (fun _ : Nat => some ([] : List Item)) 0 = some [])
    ∧ (find_domain_rank (fun _ => some []) (fun _ => some [])
        "shoes" "example.com" 100).found = false
    ∧ (find_domain_rank (fun _ => some []) (fun _ => some [])
        "shoes" "example.com" 100).total_results = 0 :=
  ⟨⟨rfl, rfl⟩,
   (c9_empty_first_page_clean_not_found (fun _ => some []) (fun _ => some [])
      rfl rfl "shoes" "example.com" 100).2.1,
   (c9_empty_first_page_clean_not_found (fun _ => some []) (fun _ => some [])
      rfl rfl "shoes" "example.com" 100).2.2.2.1⟩

/-! ## Claim C4: the 50-result safety cap -/

/-- Page-order assembly of at most k pages of at most 10 items each yields
at most 10 k items. -/
theorem assemblePages_length_le {pages : List (List Item)}
    (h : ∀ p ∈ pages, p.length ≤ 10) :
    (assemblePages pages).length ≤ 10 * pages.length := by
  induction pages with
  | nil => simp [assemblePages]
  | cons p ps ih =>
    rw [assemblePages]
    split
    · simp
    · rw [List.length_append]
      have h1 := h p (List.mem_cons_self p ps)
      have h2 := ih (fun q hq => h q (List.mem_cons_of_mem p hq))
      simp only [List.length_cons]
      omega

/-- The sequential fallback over at most k pages of at most 10 items each
yields at most 10 k items. -/
theorem seqFetch_length_le {fs : PageOracle}
    (h : ∀ i p, fs i = some p → p.length ≤ 10) :
    ∀ idxs : List Nat, (seqFetch fs idxs).length ≤ 10 * idxs.length := by
  intro idxs
  induction idxs with
  | nil => simp [seqFetch]
  | cons i is ih =>
    cases hfi : fs i with
    | none => simp [seqFetch, hfi]
    | some organic =>
      simp only [seqFetch, hfi]
      split
      · simp
      · rw [List.length_append]
        have h1 := h i organic hfi
        simp only [List.length_cons]
        omega

/-- As long as every upstream page carries at most 10 organic results (the
per-page count the code requests), search returns at most 50 results, for
any requested max_results. -/
theorem search_length_le_50 {fp fs : PageOracle}
    (hp : ∀ i p, fp i = some p → p.length ≤ 10)
    (hs : ∀ i p, fs i = some p → p.length ≤ 10) (m : Nat) :
    (search fp fs m).length ≤ 50 := by
  simp only [search]
  rw [List.length_take]
  have hk : min ((m + 10 - 1) / 10) 5 ≤ 5 := min_le_right _ _
  have hbound :
      (if (List.range (min ((m + 10 - 1) / 10) 5)).all (fun i => (fp i).isSome) then
          assemblePages ((List.range (min ((m + 10 - 1) / 10) 5)).map
            (fun i => (fp i).getD []))
        else seqFetch fs (List.range (min ((m + 10 - 1) / 10) 5))).length ≤ 50 := by
    split
    · have hmem : ∀ p ∈ (List.range (min ((m + 10 - 1) / 10) 5)).map
          (fun i => (fp i).getD []), p.length ≤ 10 := by
        intro p hpmem
        rcases List.mem_map.mp hpmem with ⟨i, _, rfl⟩
        cases hfi : fp i with
        | none => simp [hfi]
        | some q => simpa [hfi] using hp i q hfi
      have := assemblePages_length_le hmem
      rw [List.length_map, List.length_range] at this
      omega
    · have := seqFetch_length_le hs (List.range (min ((m + 10 - 1) / 10) 5))
      rw [List.length_range] at this
      omega
  omega

/-- The total_results of every response produced by the chunk loop is
bounded by 50 whenever every search call is. -/
theorem chunkLoop_total_le {fp fs : PageOracle}
    (hsl : ∀ m, (search fp fs m).length ≤ 50)
    (kw dom nd : String) (max_results : Nat) :
    ∀ (starts : List Nat) (acc : List Item), acc.length ≤ 50 →
      (chunkLoop fp fs kw dom nd max_results starts acc).total_results ≤ 50 := by
  intro starts
  induction starts with
  | nil => intro acc hacc; exact hacc
  | cons cs rest ih =>
    intro acc hacc
    simp only [chunkLoop]
    split
    · exact hsl _
    · split
      · exact hsl _
      · exact ih _ (hsl _)

/-- Claim C4: regardless of the requested max_results, the number of organic
results returned by search, and the total_results field of the RankResult
returned by find_domain_rank, never exceed the safety ceiling of 50 results
(5 pages of 10), provided each upstream page carries at most the 10
per-page results the code asks for. -/
theorem c4_safety_cap (fp fs : PageOracle)
    (hp : ∀ i p, fp i = some p → p.length ≤ 10)
    (hs : ∀ i p, fs i = some p → p.length ≤ 10)
    (kw dom : String) (max_results : Nat) :
    (∀ m, (search fp fs m).length ≤ 50)
    ∧ (find_domain_rank fp fs kw dom max_results).total_results ≤ 50 := by
  have h50 := fun m => search_length_le_50 hp hs m
  refine ⟨h50, ?_⟩
  unfold find_domain_rank
  exact chunkLoop_total_le h50 kw dom (normalize_domain dom) max_results _ []
    (by simp)

/-- Witness for c4_safety_cap with an empty upstream and a huge requested
count. -/
theorem c4_safety_cap_witness :
    (∀ i p, pagesOf [] i = some p → p.length ≤ 10)
    ∧ (∀ i p, (fun _ : Nat => (none : Option (List Item))) i = some p →
        p.length ≤ 10)
    ∧ (find_domain_rank (pagesOf []) (fun _ => none)
        "shoes" "example.com" 100000).total_results ≤ 50 :=
  have hp : ∀ i p, pagesOf [] i = some p → p.length ≤ 10 := by
    intro i p h
    simp only [pagesOf, List.drop_nil, List.take_nil, Option.some.injEq] at h
    rw [← h]
    decide
  have hs : ∀ i p, (fun _ : Nat => (none : Option (List Item))) i = some p →
      p.length ≤ 10 := fun i p h => Option.noConfusion h
  ⟨hp, hs,
   (c4_safety_cap (pagesOf []) (fun _ => none) hp hs
      "shoes" "example.com" 100000).2⟩

/-! ## Claim C7: invariants of the assembled RankResult -/

/-- The preview list has one entry per supplied item. -/
theorem topResultsFrom_length :
    ∀ (i : Nat) (l : List Item), (topResultsFrom i l).length = l.length := by
  intro i l
  induction l generalizing i with
  | nil => rfl
  | cons r rs ih =>
    simp only [topResultsFrom, List.length_cons, ih]

/-- The positions of the preview entries starting at i are i, i+1, and so
on, one per supplied item. -/
theorem topResultsFrom_positions :
    ∀ (i : Nat) (l : List Item),
      (topResultsFrom i l).map TopResult.position = List.range' i l.length := by
  intro i l
  induction l generalizing i with
  | nil => rfl
  | cons r rs ih =>
    simp only [topResultsFrom, List.map_cons, List.length_cons]
    rw [show List.range' i (rs.length + 1) = i :: List.range' (i + 1) rs.length
        from rfl, ih]

/-- A successful scan that started at index i reports a position at least i
and at most i - 1 plus the number of scanned items. -/
theorem scanFrom_bounds {nd : String} :
    ∀ {l : List Item} {i p : Nat} {r : Item},
      scanFrom nd i l = some (p, r) → i ≤ p ∧ p < i + l.length := by
  intro l
  induction l with
  | nil => intro i p r h; cases h
  | cons x xs ih =>
    intro i p r h
    rw [scanFrom] at h
    split at h
    · rcases h with ⟨rfl, rfl⟩
      simp
    · rcases ih h with ⟨h1, h2⟩
      constructor
      · omega
      · simp only [List.length_cons]
        omega

/-- The three RankResult invariants hold for any response assembled by
_create_response from a position bounded by the item count. -/
theorem create_response_invariants (kw dom : String) (pos : Option Nat)
    (org : List Item) (fr : Option Item)
    (hpos : ∀ p, pos = some p → p ≤ org.length) :
    (∀ p, (create_response kw dom pos org fr).position = some p →
        p ≤ (create_response kw dom pos org fr).total_results)
    ∧ (create_response kw dom pos org fr).top_results.length
        = min 10 (create_response kw dom pos org fr).total_results
    ∧ (create_response kw dom pos org fr).top_results.map TopResult.position
        = List.range' 1 (create_response kw dom pos org fr).top_results.length := by
  refine ⟨hpos, ?_, ?_⟩
  · show (topResultsFrom 1 (org.take 10)).length = min 10 org.length
    rw [topResultsFrom_length, List.length_take]
  · show (topResultsFrom 1 (org.take 10)).map TopResult.position
        = List.range' 1 (topResultsFrom 1 (org.take 10)).length
    rw [topResultsFrom_positions, topResultsFrom_length]

/-- Every response produced by the chunk loop satisfies the three
RankResult invariants: the found position, when present, comes from the
scan of the very organic list stored in the response. -/
theorem chunkLoop_invariants (fp fs : PageOracle) (kw dom nd : String)
    (max_results : Nat) :
    ∀ (starts : List Nat) (acc : List Item),
      (∀ p, (chunkLoop fp fs kw dom nd max_results starts acc).position = some p →
          p ≤ (chunkLoop fp fs kw dom nd max_results starts acc).total_results)
      ∧ (chunkLoop fp fs kw dom nd max_results starts acc).top_results.length
          = min 10 (chunkLoop fp fs kw dom nd max_results starts acc).total_results
      ∧ (chunkLoop fp fs kw dom nd max_results starts acc).top_results.map
            TopResult.position
          = List.range' 1
              (chunkLoop fp fs kw dom nd max_results starts acc).top_results.length := by
  intro starts
  induction starts with
  | nil =>
    intro acc
    exact create_response_invariants kw dom none acc none (fun p h => by cases h)
  | cons cs rest ih =>
    intro acc
    simp only [chunkLoop]
    split
    · rename_i p r heq
      refine create_response_invariants kw dom (some p) _ (some r) ?_
      intro q hq
      have hpq : p = q := Option.some.inj hq
      subst hpq
      have hb := (scanFrom_bounds heq).2
      omega
    · split
      · exact create_response_invariants kw dom none _ none (fun p h => by cases h)
      · exact ih _

/-- Claim C7: for every RankResult assembled by find_domain_rank, position
(when present) never exceeds total_results, top_results has length exactly
min(10, total_results), and the position fields of the top_results entries
are exactly 1, 2, ..., length in order. -/
theorem c7_rank_result_invariants (fp fs : PageOracle) (kw dom : String)
    (max_results : Nat) :
    (∀ p, (find_domain_rank fp fs kw dom max_results).position = some p →
        p ≤ (find_domain_rank fp fs kw dom max_results).total_results)
    ∧ (find_domain_rank fp fs kw dom max_results).top_results.length
        = min 10 (find_domain_rank fp fs kw dom max_results).total_results
    ∧ (find_domain_rank fp fs kw dom max_results).top_results.map
          TopResult.position
        = List.range' 1
            (find_domain_rank fp fs kw dom max_results).top_results.length := by
  unfold find_domain_rank
  exact chunkLoop_invariants fp fs kw dom (normalize_domain dom) max_results _ []

/-- Witness for c7_rank_result_invariants at a concrete upstream where the
domain is found at position 13 among 14 fetched results. -/
theorem c7_rank_result_invariants_witness :
    (find_domain_rank (pagesOf exampleResults) (fun _ => none)
        "shoes" "example.com" 100).position = some 13
    ∧ 13 ≤ (find_domain_rank (pagesOf exampleResults) (fun _ => none)
        "shoes" "example.com" 100).total_results :=
  ⟨by decide,
   (c7_rank_result_invariants (pagesOf exampleResults) (fun _ => none)
      "shoes" "example.com" 100).1 13 (by decide)⟩

/-! ## Claim C2: first-match position through the chunked resolver -/

/-- Assembling the pages of a fixed upstream list in page order recovers a
prefix of the list: k pages give the first 10 k items. -/
theorem assemblePages_pagesOf :
    ∀ (k : Nat) (L : List Item),
      assemblePages ((List.range k).map (fun i => (L.drop (10 * i)).take 10))
        = L.take (10 * k) := by
  intro k
  induction k with
  | zero => intro L; simp [assemblePages]
  | succ j ih =>
    intro L
    rw [List.range_succ_eq_map, List.map_cons, List.map_map]
    have hfun : ((fun i => (L.drop (10 * i)).take 10) ∘ Nat.succ)
        = fun i => ((L.drop 10).drop (10 * i)).take 10 := by
      funext i
      show (L.drop (10 * (i + 1))).take 10 = ((L.drop 10).drop (10 * i)).take 10
      rw [List.drop_drop]
      have harith : 10 * (i + 1) = 10 + 10 * i := by ring
      rw [harith]
    rw [hfun]
    cases L with
    | nil => simp [assemblePages]
    | cons x xs =>
      rw [show (10 * 0) = 0 from rfl, List.drop_zero]
      rw [show assemblePages (((x :: xs).take 10) ::
            (List.range j).map (fun i => (((x :: xs).drop 10).drop (10 * i)).take 10))
          = ((x :: xs).take 10) ++ assemblePages ((List.range j).map
              (fun i => (((x :: xs).drop 10).drop (10 * i)).take 10)) from rfl]
      rw [ih]
      rw [show 10 * (j + 1) = 10 + 10 * j by ring, List.take_add]

/-- With a fixed upstream list, search returns exactly the prefix of the
list cut at the requested count and at the 50-result cap. -/
theorem search_pagesOf (L : List Item) (fs : PageOracle) (m : Nat) :
    search (pagesOf L) fs m = L.take (min m 50) := by
  simp only [search]
  have hall : (List.range (min ((m + 10 - 1) / 10) 5)).all
      (fun i => ((pagesOf L) i).isSome) = true := by
    simp [pagesOf]
  rw [if_pos hall]
  rw [show ((List.range (min ((m + 10 - 1) / 10) 5)).map
        (fun i => ((pagesOf L) i).getD []))
      = ((List.range (min ((m + 10 - 1) / 10) 5)).map
        (fun i => (L.drop (10 * i)).take 10)) from rfl]
  rw [assemblePages_pagesOf, List.take_take]
  have harg : m ⊓ 10 * min ((m + 10 - 1) / 10) 5 = min m 50 := by omega
  rw [harg]

/-- Extending the scanned list to the right cannot change a successful
scan. -/
theorem scanFrom_append_some {nd : String} :
    ∀ {l₁ : List Item} {i p : Nat} {r : Item},
      scanFrom nd i l₁ = some (p, r) → ∀ l₂,
        scanFrom nd i (l₁ ++ l₂) = some (p, r) := by
  intro l₁
  induction l₁ with
  | nil => intro i p r h; cases h
  | cons x xs ih =>
    intro i p r h l₂
    by_cases hcond : domainMatch nd (itemGet x "link" "") = true
    · rw [scanFrom, if_pos hcond] at h
      rw [List.cons_append, scanFrom, if_pos hcond]
      exact h
    · rw [scanFrom, if_neg hcond] at h
      rw [List.cons_append, scanFrom, if_neg hcond]
      exact ih h l₂

/-- A failed scan passes through to the appended tail, with the index
advanced by the length scanned. -/
theorem scanFrom_append_none {nd : String} :
    ∀ {l₁ : List Item} {i : Nat},
      scanFrom nd i l₁ = none → ∀ l₂,
        scanFrom nd i (l₁ ++ l₂) = scanFrom nd (i + l₁.length) l₂ := by
  intro l₁
  induction l₁ with
  | nil => intro i _ l₂; simp [scanFrom]
  | cons x xs ih =>
    intro i h l₂
    by_cases hcond : domainMatch nd (itemGet x "link" "") = true
    · rw [scanFrom, if_pos hcond] at h
      cases h
    · rw [scanFrom, if_neg hcond] at h
      rw [List.cons_append, scanFrom, if_neg hcond, ih h l₂]
      congr 1
      simp only [List.length_cons]
      omega

/-- A match found within position a of a longer prefix is found, at the
same position, in any prefix reaching position a. -/
theorem scanFrom_take_found {nd : String} {L : List Item} {b p : Nat}
    {r : Item} (h : scanFrom nd 1 (L.take b) = some (p, r)) (a : Nat)
    (hp : p ≤ a) : scanFrom nd 1 (L.take a) = some (p, r) := by
  rcases le_or_lt a b with hab | hab
  · have hsplit : L.take b = L.take a ++ (L.drop a).take (b - a) := by
      rw [← List.take_add]
      congr 1
      omega
    have hub := (scanFrom_bounds h).2
    rw [hsplit] at h
    cases h1 : scanFrom nd 1 (L.take a) with
    | some v =>
      have h3 := scanFrom_append_some h1 ((L.drop a).take (b - a))
      rw [h3] at h
      exact h
    | none =>
      exfalso
      have h2 := scanFrom_append_none h1 ((L.drop a).take (b - a))
      rw [h2] at h
      have hlb := (scanFrom_bounds h).1
      rw [List.length_take] at hlb
      rw [hsplit, List.length_append, List.length_take, List.length_take,
        List.length_drop] at hub
      omega
  · have hsplit : L.take a = L.take b ++ (L.drop b).take (a - b) := by
      rw [← List.take_add]
      congr 1
      omega
    rw [hsplit]
    exact scanFrom_append_some h _

/-- A prefix cut strictly before the first match position scans to
nothing. -/
theorem scanFrom_take_none {nd : String} {L : List Item} {b p a : Nat}
    {r : Item} (h : scanFrom nd 1 (L.take b) = some (p, r)) (hp : a < p)
    (hab : a ≤ b) : scanFrom nd 1 (L.take a) = none := by
  cases h1 : scanFrom nd 1 (L.take a) with
  | none => rfl
  | some v =>
    exfalso
    rcases v with ⟨q, s⟩
    have hsplit : L.take b = L.take a ++ (L.drop a).take (b - a) := by
      rw [← List.take_add]
      congr 1
      omega
    have h3 := scanFrom_append_some h1 ((L.drop a).take (b - a))
    rw [← hsplit] at h3
    rw [h3] at h
    have hqp : q = p := congrArg (fun v => v.1) (Option.some.inj h)
    have hub := (scanFrom_bounds h1).2
    rw [List.length_take] at hub
    omega

/-- No item strictly before a successful scan position matches: the scan
reports the first match. -/
theorem scanFrom_earlier_no_match {nd : String} :
    ∀ {l : List Item} {i p : Nat} {r : Item},
      scanFrom nd i l = some (p, r) →
      ∀ j, i + j < p →
        domainMatch nd (itemGet (l.getD j []) "link" "") = false := by
  intro l
  induction l with
  | nil => intro i p r h; cases h
  | cons x xs ih =>
    intro i p r h j hj
    by_cases hcond : domainMatch nd (itemGet x "link" "") = true
    · rw [scanFrom, if_pos hcond] at h
      have : i = p := congrArg (fun v => v.1) (Option.some.inj h)
      omega
    · rw [scanFrom, if_neg hcond] at h
      cases j with
      | zero => exact Bool.eq_false_iff.mpr hcond
      | succ n => exact ih h n (by omega)

/-- The chunk loop over a fixed upstream list finds the first match: if the
scan of the overall fetched prefix reports (p, r), then every tail of the
chunk schedule that still covers max_results and has not yet passed p
returns the found response carrying position p and the details of r. -/
theorem chunkLoop_finds {L : List Item} (fs : PageOracle) (kw dom : String)
    {nd : String} {max_results p : Nat} {r : Item}
    (hscan : scanFrom nd 1 (L.take (min max_results 50)) = some (p, r)) :
    ∀ (k j : Nat), max_results ≤ 20 * j + 20 * k → 20 * j < p →
      ∀ acc : List Item,
        (chunkLoop (pagesOf L) fs kw dom nd max_results
            (List.range' (20 * j) k 20) acc).position = some p
        ∧ (chunkLoop (pagesOf L) fs kw dom nd max_results
            (List.range' (20 * j) k 20) acc).found = true
        ∧ (chunkLoop (pagesOf L) fs kw dom nd max_results
            (List.range' (20 * j) k 20) acc).details = detailsOf (some r) := by
  have hub := (scanFrom_bounds hscan).2
  rw [List.length_take] at hub
  intro k
  induction k with
  | zero =>
    intro j hcov hgt acc
    exfalso
    omega
  | succ k ih =>
    intro j hcov hgt acc
    rw [show List.range' (20 * j) (k + 1) 20
        = (20 * j) :: List.range' (20 * j + 20) k 20 from rfl]
    simp only [chunkLoop, findFirstMatch]
    rw [search_pagesOf]
    by_cases hp : p ≤ min (20 * j + min 20 (max_results - 20 * j)) 50
    · rw [scanFrom_take_found hscan _ hp]
      exact ⟨rfl, rfl, rfl⟩
    · push_neg at hp
      have hnone := scanFrom_take_none hscan hp (by omega)
      rw [hnone]
      have hlt : (L.take (min (20 * j + min 20 (max_results - 20 * j)) 50)).length
          < max_results := by
        rw [List.length_take]
        omega
      rw [if_neg (by omega)]
      have hgt2 : 20 * (j + 1) < p := by omega
      have hcov2 : max_results ≤ 20 * (j + 1) + 20 * k := by omega
      have hrw : 20 * j + 20 = 20 * (j + 1) := by ring
      rw [hrw]
      exact ih (j + 1) hcov2 hgt2 _

/-- Claim C2: for every upstream result sequence containing a matching item
within the fetched range, find_domain_rank reports found with position
equal to the 1-based index of the first matching item, carries the details
of that item (in particular its link as url), and no earlier item matches;
the chunked early-exit traversal never reports a later match. -/
theorem c2_first_match_position (L : List Item) (fs : PageOracle)
    (kw dom : String) (max_results p : Nat) (r : Item)
    (hscan : findFirstMatch (normalize_domain dom)
        (L.take (min max_results 50)) = some (p, r)) :
    (find_domain_rank (pagesOf L) fs kw dom max_results).found = true
    ∧ (find_domain_rank (pagesOf L) fs kw dom max_results).position = some p
    ∧ (find_domain_rank (pagesOf L) fs kw dom max_results).details
        = detailsOf (some r)
    ∧ (∀ j, j + 1 < p →
        domainMatch (normalize_domain dom)
          (itemGet ((L.take (min max_results 50)).getD j []) "link" "")
          = false) := by
  have hs : scanFrom (normalize_domain dom) 1 (L.take (min max_results 50))
      = some (p, r) := hscan
  have hone : 1 ≤ p := (scanFrom_bounds hs).1
  have hfirst : ∀ j, j + 1 < p →
      domainMatch (normalize_domain dom)
        (itemGet ((L.take (min max_results 50)).getD j []) "link" "")
        = false :=
    fun j hj => scanFrom_earlier_no_match hs j (by omega)
  unfold find_domain_rank chunkStarts
  have hmain := chunkLoop_finds fs kw dom hs ((max_results + 19) / 20) 0
    (by omega) (by omega) []
  exact ⟨hmain.2.1, hmain.1, hmain.2.2, hfirst⟩

/-- Witness for c2_first_match_position at the concrete scenario of the
claim: ten non-matching page-1 items, the match at 1-based index 3 of
page 2, reported position 13 with the matched link as url. -/
theorem c2_first_match_position_witness :
    findFirstMatch (normalize_domain "example.com")
        (exampleResults.take (min 100 50))
      = some (13, [("link", "https://example.com/shoes")])
    ∧ (find_domain_rank (pagesOf exampleResults) (fun _ => none)
        "shoes" "example.com" 100).position = some 13
    ∧ (find_domain_rank (pagesOf exampleResults) (fun _ => none)
        "shoes" "example.com" 100).details
        = detailsOf (some [("link", "https://example.com/shoes")]) :=
  have h : findFirstMatch (normalize_domain "example.com")
      (exampleResults.take (min 100 50))
      = some (13, [("link", "https://example.com/shoes")]) := by decide
  ⟨h,
   (c2_first_match_position exampleResults (fun _ => none) "shoes"
      "example.com" 100 13 [("link", "https://example.com/shoes")] h).2.1,
   (c2_first_match_position exampleResults (fun _ => none) "shoes"
      "example.com" 100 13 [("link", "https://example.com/shoes")] h).2.2.1⟩
